import Mathlib

/-!
Verification of the gitlab-claude-webhook orchestration pipeline.

Byte strings are modelled as `List Nat` (each entry one byte), machine words
as `Nat` reduced modulo `2^32` where the source wraps, and JavaScript strings
as `String`/`List Char`.  Fallible collaborators (git, the comment API, the
agent transport) enter as explicit outcome parameters, and side effects are
recorded as event traces.
-/

namespace Webhook

/-! ## SHA-256 over byte lists (crypto.createHmac backend) -/

/-- Reduce a word modulo `2^32`. -/
def w32 (n : Nat) : Nat := n % 4294967296

/-- Right rotation of a 32-bit word. -/
def rotr32 (x n : Nat) : Nat := w32 ((x >>> n) ||| (x <<< (32 - n)))

/-- `Ch(x,y,z)` from FIPS 180-4. -/
def shaCh (x y z : Nat) : Nat := (x &&& y) ^^^ ((x ^^^ 4294967295) &&& z)

/-- `Maj(x,y,z)` from FIPS 180-4. -/
def shaMaj (x y z : Nat) : Nat := (x &&& y) ^^^ (x &&& z) ^^^ (y &&& z)

/-- Big sigma 0. -/
def bsig0 (x : Nat) : Nat := rotr32 x 2 ^^^ rotr32 x 13 ^^^ rotr32 x 22

/-- Big sigma 1. -/
def bsig1 (x : Nat) : Nat := rotr32 x 6 ^^^ rotr32 x 11 ^^^ rotr32 x 25

/-- Small sigma 0. -/
def ssig0 (x : Nat) : Nat := rotr32 x 7 ^^^ rotr32 x 18 ^^^ (x >>> 3)

/-- Small sigma 1. -/
def ssig1 (x : Nat) : Nat := rotr32 x 17 ^^^ rotr32 x 19 ^^^ (x >>> 10)

/-- The 64 SHA-256 round constants. -/
def shaK : List Nat :=
  [1116352408, 1899447441, 3049323471, 3921009573, 961987163, 1508970993, 2453635748,
   2870763221, 3624381080, 310598401, 607225278, 1426881987, 1925078388, 2162078206, 2614888103,
   3248222580, 3835390401, 4022224774, 264347078, 604807628, 770255983, 1249150122, 1555081692,
   1996064986, 2554220882, 2821834349, 2952996808, 3210313671, 3336571891, 3584528711,
   113926993, 338241895, 666307205, 773529912, 1294757372, 1396182291, 1695183700, 1986661051,
   2177026350, 2456956037, 2730485921, 2820302411, 3259730800, 3345764771, 3516065817,
   3600352804, 4094571909, 275423344, 430227734, 506948616, 659060556, 883997877, 958139571,
   1322822218, 1537002063, 1747873779, 1955562222, 2024104815, 2227730452, 2361852424,
   2428436474, 2756734187, 3204031479, 3329325298]

/-- The eight SHA-256 initial hash values. -/
structure ShaState where
  a : Nat
  b : Nat
  c : Nat
  d : Nat
  e : Nat
  f : Nat
  g : Nat
  h : Nat
deriving DecidableEq, Repr

/-- SHA-256 initial state. -/
def shaInit : ShaState :=
  ⟨1779033703, 3144134277, 1013904242, 2773480762, 1359893119, 2600822924, 528734635, 1541459225⟩

/-- Big-endian 32-bit words from a byte list whose length is a multiple of 4. -/
def bytesToWordsBE : List Nat → List Nat
  | b0 :: b1 :: b2 :: b3 :: rest => (((b0 * 256 + b1) * 256 + b2) * 256 + b3) :: bytesToWordsBE rest
  | _ => []

/-- Message-schedule extension: `acc` holds the words produced so far, most
recent first; each step appends `σ₁(w[t-2]) + w[t-7] + σ₀(w[t-15]) + w[t-16]`. -/
def extendSchedule (acc : List Nat) : Nat → List Nat
  | 0 => acc
  | n + 1 =>
      extendSchedule
        (w32 (ssig1 (acc.getD 1 0) + acc.getD 6 0 + ssig0 (acc.getD 14 0) + acc.getD 15 0) :: acc) n

/-- The 64-entry message schedule of one 64-byte block. -/
def schedule (block : List Nat) : List Nat :=
  (extendSchedule (bytesToWordsBE block).reverse 48).reverse

/-- One SHA-256 round with round constant `k` and schedule word `w`. -/
def shaRound (s : ShaState) (kw : Nat × Nat) : ShaState :=
  let t1 := w32 (s.h + bsig1 s.e + shaCh s.e s.f s.g + kw.1 + kw.2)
  let t2 := w32 (bsig0 s.a + shaMaj s.a s.b s.c)
  ⟨w32 (t1 + t2), s.a, s.b, s.c, w32 (s.d + t1), s.e, s.f, s.g⟩

/-- Compress one 64-byte block into the running state. -/
def shaCompress (st : ShaState) (block : List Nat) : ShaState :=
  let s := (shaK.zip (schedule block)).foldl shaRound st
  ⟨w32 (st.a + s.a), w32 (st.b + s.b), w32 (st.c + s.c), w32 (st.d + s.d),
   w32 (st.e + s.e), w32 (st.f + s.f), w32 (st.g + s.g), w32 (st.h + s.h)⟩

/-- Big-endian 8-byte encoding of the 64-bit message bit length. -/
def lenBytes64 (bitLen : Nat) : List Nat :=
  let n := bitLen % 18446744073709551616
  [n >>> 56 % 256, n >>> 48 % 256, n >>> 40 % 256, n >>> 32 % 256,
   n >>> 24 % 256, n >>> 16 % 256, n >>> 8 % 256, n % 256]

/-- SHA-256 padding: append `0x80`, zero-fill to 56 mod 64, then the bit length. -/
def shaPad (msg : List Nat) : List Nat :=
  msg ++ 128 :: List.replicate ((120 - (msg.length + 1) % 64) % 64) 0 ++ lenBytes64 (msg.length * 8)

/-- Fold the compression function over `n` 64-byte blocks. -/
def shaBlocks (st : ShaState) (l : List Nat) : Nat → ShaState
  | 0 => st
  | n + 1 => shaBlocks (shaCompress st (l.take 64)) (l.drop 64) n

/-- Big-endian bytes of one 32-bit word. -/
def wordBytesBE (w : Nat) : List Nat :=
  [w >>> 24 % 256, w >>> 16 % 256, w >>> 8 % 256, w % 256]

/-- The 32 digest bytes of a final state. -/
def digestBytes (s : ShaState) : List Nat :=
  wordBytesBE s.a ++ wordBytesBE s.b ++ wordBytesBE s.c ++ wordBytesBE s.d ++
  wordBytesBE s.e ++ wordBytesBE s.f ++ wordBytesBE s.g ++ wordBytesBE s.h

/-- SHA-256 of a byte list. -/
def sha256 (msg : List Nat) : List Nat :=
  let padded := shaPad msg
  digestBytes (shaBlocks shaInit padded (padded.length / 64))

/-- HMAC-SHA256 (FIPS 198-1) with block size 64, as `crypto.createHmac`. -/
def hmacSha256 (key msg : List Nat) : List Nat :=
  let k0 := if 64 < key.length then sha256 key else key
  let kp := k0 ++ List.replicate (64 - k0.length) 0
  sha256 ((kp.map (· ^^^ 92)) ++ sha256 ((kp.map (· ^^^ 54)) ++ msg))

/-! ## Hex encoding and Node buffer decoding -/

/-- The ASCII code of the lowercase hex digit of a value below 16,
as `digest('hex')` prints it. -/
def hexDigitLower (n : Nat) : Nat := if n < 10 then 48 + n else 87 + n

/-- Lowercase hex encoding of a byte list (ASCII codes), as `digest('hex')`. -/
def bytesToHexLower : List Nat → List Nat
  | [] => []
  | b :: rest => hexDigitLower (b / 16) :: hexDigitLower (b % 16) :: bytesToHexLower rest

/-- The value of one hex digit (ASCII code), accepting both cases as the Node
hex decoder does, or `none` for a non-hex character. -/
def hexVal (c : Nat) : Option Nat :=
  if 48 ≤ c ∧ c ≤ 57 then some (c - 48)
  else if 97 ≤ c ∧ c ≤ 102 then some (c - 87)
  else if 65 ≤ c ∧ c ≤ 70 then some (c - 55)
  else none

/-- `Buffer.from(s, 'hex')`: decode hex pairs from the front, truncating at the
first invalid pair and dropping a trailing lone digit. -/
def bufferFromHex : List Nat → List Nat
  | a :: b :: rest =>
      match hexVal a, hexVal b with
      | some x, some y => (16 * x + y) :: bufferFromHex rest
      | _, _ => []
  | _ => []

/-- Strict hex decoding: succeeds only when the whole string is hex pairs. -/
def decodeHexStrict : List Nat → Option (List Nat)
  | [] => some []
  | a :: b :: rest =>
      match hexVal a, hexVal b with
      | some x, some y => (decodeHexStrict rest).map ((16 * x + y) :: ·)
      | _, _ => none
  | _ :: [] => none

/-! ## verifyGitLabSignature (src/utils/webhook.ts)

The raw request body, the authentication header and the configured secret are
byte lists (the UTF-8 bytes of the JavaScript strings). -/

/-- The seven ASCII bytes of the header tag the source spells in
`signature.startsWith` and strips with `signature.replace`. -/
def sha256HeaderTag : List Nat := [115, 104, 97, 50, 53, 54, 61]

/-- Does the byte list start with the `sha256=` tag? -/
def startsWithTag : List Nat → Bool
  | 115 :: 104 :: 97 :: 50 :: 53 :: 54 :: 61 :: _ => true
  | _ => false

/-- `crypto.timingSafeEqual` wrapped in the source's try/catch: a buffer length
mismatch throws and the catch maps it to `false`; equal lengths compare. -/
def timingSafeEqualCaught (a b : List Nat) : Bool :=
  if a.length ≠ b.length then false else decide (a = b)

/-- `verifyGitLabSignature(body, signature)` with the configured secret made
explicit.  Mirrors the source: empty header or empty configured secret is
rejected; a header equal to the secret verifies; a `sha256=`-tagged header is
length-checked against the hex HMAC digest and then compared through
`Buffer.from(·,'hex')` and `timingSafeEqual`; anything else is rejected. -/
def verifyGitLabSignature (secret body signature : List Nat) : Bool :=
  if signature = [] then false
  else if secret = [] then false
  else if signature = secret then true
  else if startsWithTag signature then
    if (bytesToHexLower (hmacSha256 secret body)).length ≠ (signature.drop 7).length then false
    else
      timingSafeEqualCaught (bufferFromHex (bytesToHexLower (hmacSha256 secret body)))
        (bufferFromHex (signature.drop 7))
  else false

/-- Instrumented variant of `verifyGitLabSignature` that additionally reports
whether control reached the `crypto.timingSafeEqual` call.  Same branch
structure as the source; used to state that a length mismatch is rejected
before the constant-time comparison. -/
def verifyGitLabSignatureT (secret body signature : List Nat) : Bool × Bool :=
  if signature = [] then (false, false)
  else if secret = [] then (false, false)
  else if signature = secret then (true, false)
  else if startsWithTag signature then
    if (bytesToHexLower (hmacSha256 secret body)).length ≠ (signature.drop 7).length then
      (false, false)
    else
      (timingSafeEqualCaught (bufferFromHex (bytesToHexLower (hmacSha256 secret body)))
        (bufferFromHex (signature.drop 7)), true)
  else (false, false)

/-! ## Facts about the digest, hex, and buffer functions -/

theorem wordBytesBE_length (w : Nat) : (wordBytesBE w).length = 4 := rfl

theorem wordBytesBE_lt (w : Nat) : ∀ x ∈ wordBytesBE w, x < 256 := by
  intro x hx
  simp only [wordBytesBE, List.mem_cons, List.not_mem_nil, or_false] at hx
  rcases hx with h | h | h | h <;> subst h <;> exact Nat.mod_lt _ (by norm_num)

theorem digestBytes_length (s : ShaState) : (digestBytes s).length = 32 := by
  simp [digestBytes, wordBytesBE]

theorem digestBytes_lt (s : ShaState) : ∀ x ∈ digestBytes s, x < 256 := by
  intro x hx
  simp only [digestBytes, List.mem_append] at hx
  rcases hx with ((((((h | h) | h) | h) | h) | h) | h) | h <;> exact wordBytesBE_lt _ _ h

theorem sha256_length (m : List Nat) : (sha256 m).length = 32 := digestBytes_length _

theorem sha256_lt (m : List Nat) : ∀ x ∈ sha256 m, x < 256 := digestBytes_lt _

theorem hmacSha256_length (k m : List Nat) : (hmacSha256 k m).length = 32 := by
  unfold hmacSha256; exact sha256_length _

theorem hmacSha256_lt (k m : List Nat) : ∀ x ∈ hmacSha256 k m, x < 256 := by
  unfold hmacSha256; exact sha256_lt _

theorem bytesToHexLower_length (l : List Nat) : (bytesToHexLower l).length = 2 * l.length := by
  induction l with
  | nil => rfl
  | cons b rest ih => simp [bytesToHexLower, ih]; ring

theorem hexVal_hexDigitLower (n : Nat) (h : n < 16) : hexVal (hexDigitLower n) = some n := by
  interval_cases n <;> rfl

theorem bufferFromHex_bytesToHexLower (l : List Nat) (h : ∀ x ∈ l, x < 256) :
    bufferFromHex (bytesToHexLower l) = l := by
  induction l with
  | nil => rfl
  | cons b rest ih =>
      have hb : b < 256 := h b (by simp)
      have hdiv : b / 16 < 16 := by omega
      have hmod : b % 16 < 16 := Nat.mod_lt _ (by norm_num)
      simp only [bytesToHexLower, bufferFromHex, hexVal_hexDigitLower _ hdiv,
        hexVal_hexDigitLower _ hmod]
      rw [ih (fun x hx => h x (by simp [hx]))]
      congr 1
      omega

theorem decodeHexStrict_length (l b : List Nat) (h : decodeHexStrict l = some b) :
    l.length = 2 * b.length := by
  induction l using decodeHexStrict.induct generalizing b with
  | case1 =>
      simp only [decodeHexStrict, Option.some.injEq] at h
      subst h
      rfl
  | case2 a c rest x y hy hx ih =>
      rcases hr : decodeHexStrict rest with _ | b'
      · simp [decodeHexStrict, hx, hy, hr] at h
      · simp only [decodeHexStrict, hx, hy, hr, Option.map_some', Option.some.injEq] at h
        subst h
        have := ih b' hr
        simp only [List.length_cons, this]
        ring
  | case3 a c rest hno =>
      rcases hx : hexVal a with _ | x
      · simp [decodeHexStrict, hx] at h
      · rcases hy : hexVal c with _ | y
        · simp [decodeHexStrict, hx, hy] at h
        · exact (hno x y hx hy).elim
  | case4 a => simp [decodeHexStrict] at h

theorem bufferFromHex_of_decode (l b : List Nat) (h : decodeHexStrict l = some b) :
    bufferFromHex l = b := by
  induction l using decodeHexStrict.induct generalizing b with
  | case1 =>
      simp only [decodeHexStrict, Option.some.injEq] at h
      subst h
      rfl
  | case2 a c rest x y hy hx ih =>
      rcases hr : decodeHexStrict rest with _ | b'
      · simp [decodeHexStrict, hx, hy, hr] at h
      · simp only [decodeHexStrict, hx, hy, hr, Option.map_some', Option.some.injEq] at h
        subst h
        simp [bufferFromHex, hx, hy, ih b' hr]
  | case3 a c rest hno =>
      rcases hx : hexVal a with _ | x
      · simp [decodeHexStrict, hx] at h
      · rcases hy : hexVal c with _ | y
        · simp [decodeHexStrict, hx, hy] at h
        · exact (hno x y hx hy).elim
  | case4 a => simp [decodeHexStrict] at h

theorem decode_of_bufferFromHex (l : List Nat) (h : l.length = 2 * (bufferFromHex l).length) :
    decodeHexStrict l = some (bufferFromHex l) := by
  induction l using decodeHexStrict.induct with
  | case1 => rfl
  | case2 a c rest x y hy hx ih =>
      simp only [bufferFromHex, hx, hy, List.length_cons] at h ⊢
      have hrest : rest.length = 2 * (bufferFromHex rest).length := by omega
      simp only [decodeHexStrict, hx, hy, ih hrest, Option.map_some']
  | case3 a c rest hno =>
      exfalso
      have hb : bufferFromHex (a :: c :: rest) = [] := by
        rcases hx : hexVal a with _ | x
        · simp [bufferFromHex, hx]
        · rcases hy : hexVal c with _ | y
          · simp [bufferFromHex, hx, hy]
          · exact (hno x y hx hy).elim
      rw [hb] at h
      simp at h
  | case4 a => simp [bufferFromHex] at h

/-! ## Claims C1 and C6 -/

/-- C1 (amended): with a non-empty configured secret and a non-empty header, the
header verifies exactly when it equals the secret verbatim, or it is
`sha256=<hex>` where `<hex>` is valid hex whose decoded bytes are the
HMAC-SHA256 digest of the secret over the raw body — i.e. `<hex>` matches the
lowercase hex digest up to hex-digit case, because the Node hex decoder is
case-insensitive. -/
theorem claim_C1_verify_accepts_iff (secret body sig : List Nat)
    (hsec : secret ≠ []) (hsig : sig ≠ []) :
    verifyGitLabSignature secret body sig = true ↔
      sig = secret ∨ (startsWithTag sig = true ∧
        decodeHexStrict (sig.drop 7) = some (hmacSha256 secret body)) := by
  unfold verifyGitLabSignature
  rw [if_neg hsig, if_neg hsec]
  by_cases heq : sig = secret
  · simp [heq]
  · rw [if_neg heq]
    by_cases htag : startsWithTag sig = true
    · rw [if_pos htag]
      have hElen : (bytesToHexLower (hmacSha256 secret body)).length = 64 := by
        rw [bytesToHexLower_length, hmacSha256_length]
      have hEbuf : bufferFromHex (bytesToHexLower (hmacSha256 secret body)) =
          hmacSha256 secret body :=
        bufferFromHex_bytesToHexLower _ (hmacSha256_lt _ _)
      have hdig : (hmacSha256 secret body).length = 32 := hmacSha256_length _ _
      by_cases hlen :
          (bytesToHexLower (hmacSha256 secret body)).length ≠ (sig.drop 7).length
      · rw [if_pos hlen]
        constructor
        · intro h
          exact absurd h (by simp)
        · rintro (h | ⟨-, hdec⟩)
          · exact absurd h heq
          · have h64 := decodeHexStrict_length _ _ hdec
            rw [hdig] at h64
            omega
      · rw [if_neg hlen]
        push_neg at hlen
        unfold timingSafeEqualCaught
        rw [hEbuf]
        by_cases hbl : (hmacSha256 secret body).length ≠ (bufferFromHex (sig.drop 7)).length
        · rw [if_pos hbl]
          constructor
          · intro h
            exact absurd h (by simp)
          · rintro (h | ⟨-, hdec⟩)
            · exact absurd h heq
            · have := bufferFromHex_of_decode _ _ hdec
              rw [this] at hbl
              exact absurd rfl hbl
        · rw [if_neg hbl]
          push_neg at hbl
          simp only [decide_eq_true_eq]
          constructor
          · intro hbeq
            refine Or.inr ⟨htag, ?_⟩
            have hstrict : decodeHexStrict (sig.drop 7) = some (bufferFromHex (sig.drop 7)) :=
              decode_of_bufferFromHex _ (by omega)
            rw [hstrict, ← hbeq]
          · rintro (h | ⟨-, hdec⟩)
            · exact absurd h heq
            · exact (bufferFromHex_of_decode _ _ hdec).symm
    · rw [if_neg htag]
      constructor
      · intro h
        exact absurd h (by simp)
      · rintro (h | ⟨htag2, -⟩)
        · exact absurd h heq
        · exact absurd htag2 htag

set_option maxRecDepth 1000000 in
/-- C1 witness: for secret `"key"` and body `"abc"`, the header
`sha256=<lowercase hex of the HMAC digest>` verifies true. -/
theorem claim_C1_verify_accepts_iff_witness :
    verifyGitLabSignature [107, 101, 121] [97, 98, 99]
      [115, 104, 97, 50, 53, 54, 61, 57, 99, 49, 57, 54, 101, 51, 50, 100, 99, 48, 49, 55,
       53, 102, 56, 54, 102, 52, 98, 49, 99, 98, 56, 57, 50, 56, 57, 100, 54, 54, 49, 57,
       100, 101, 54, 98, 101, 101, 54, 57, 57, 101, 52, 99, 51, 55, 56, 101, 54, 56, 51,
       48, 57, 101, 100, 57, 55, 97, 49, 97, 54, 97, 98] = true :=
  (claim_C1_verify_accepts_iff [107, 101, 121] [97, 98, 99] _ (by decide) (by decide)).mpr
    (Or.inr ⟨by decide, by decide⟩)

set_option maxRecDepth 1000000 in
/-- C1 counterexample: with secret `"key"` and body `"abc"`, the header carrying
the UPPERCASE hex digest also verifies true, yet it neither equals the secret
nor carries the lowercase hex digest the claim demands. -/
theorem claim_C1_counterexample :
    verifyGitLabSignature [107, 101, 121] [97, 98, 99]
      [115, 104, 97, 50, 53, 54, 61, 57, 67, 49, 57, 54, 69, 51, 50, 68, 67, 48, 49, 55, 53, 70,
      56, 54, 70, 52, 66, 49, 67, 66, 56, 57, 50, 56, 57, 68, 54, 54, 49, 57, 68, 69, 54, 66,
      69, 69, 54, 57, 57, 69, 52, 67, 51, 55, 56, 69, 54, 56, 51, 48, 57, 69, 68, 57, 55, 65,
      49, 65, 54, 65, 66] = true ∧
    ([115, 104, 97, 50, 53, 54, 61, 57, 67, 49, 57, 54, 69, 51, 50, 68, 67, 48, 49, 55, 53, 70,
     56, 54, 70, 52, 66, 49, 67, 66, 56, 57, 50, 56, 57, 68, 54, 54, 49, 57, 68, 69, 54, 66, 69,
     69, 54, 57, 57, 69, 52, 67, 51, 55, 56, 69, 54, 56, 51, 48, 57, 69, 68, 57, 55, 65, 49, 65,
     54, 65, 66] : List Nat) ≠ [107, 101, 121] ∧
    ([115, 104, 97, 50, 53, 54, 61, 57, 67, 49, 57, 54, 69, 51, 50, 68, 67, 48, 49, 55, 53, 70,
     56, 54, 70, 52, 66, 49, 67, 66, 56, 57, 50, 56, 57, 68, 54, 54, 49, 57, 68, 69, 54, 66, 69,
     69, 54, 57, 57, 69, 52, 67, 51, 55, 56, 69, 54, 56, 51, 48, 57, 69, 68, 57, 55, 65, 49, 65,
     54, 65, 66] : List Nat).drop 7 ≠
      bytesToHexLower (hmacSha256 [107, 101, 121] [97, 98, 99]) := by
  decide

/-- C6 (amended): a `sha256=<hex>` header whose `<hex>` part is not 64
characters long is rejected before the constant-time comparison is reached,
provided the header does not happen to equal the configured secret verbatim
(in which case the direct-token branch accepts it first); moreover the
constant-time comparison is only ever reached when the two hex strings have
equal length, and the instrumented function agrees with the original. -/
theorem claim_C6_length_mismatch_rejected :
    (∀ secret body hex : List Nat, hex.length ≠ 64 → sha256HeaderTag ++ hex ≠ secret →
        verifyGitLabSignatureT secret body (sha256HeaderTag ++ hex) = (false, false)) ∧
    (∀ secret body sig : List Nat, (verifyGitLabSignatureT secret body sig).2 = true →
        (bytesToHexLower (hmacSha256 secret body)).length = (sig.drop 7).length) ∧
    (∀ secret body sig : List Nat,
        (verifyGitLabSignatureT secret body sig).1 = verifyGitLabSignature secret body sig) := by
  refine ⟨?_, ?_, ?_⟩
  · intro secret body hex hlen hne
    have hsignil : sha256HeaderTag ++ hex ≠ [] := by simp [sha256HeaderTag]
    unfold verifyGitLabSignatureT
    rw [if_neg hsignil]
    by_cases hsecnil : secret = []
    · rw [if_pos hsecnil]
    · rw [if_neg hsecnil, if_neg hne]
      have htag : startsWithTag (sha256HeaderTag ++ hex) = true := rfl
      rw [if_pos htag]
      have hcond : (bytesToHexLower (hmacSha256 secret body)).length ≠
          ((sha256HeaderTag ++ hex).drop 7).length := by
        have hdrop : (sha256HeaderTag ++ hex).drop 7 = hex := rfl
        rw [hdrop, bytesToHexLower_length, hmacSha256_length]
        omega
      rw [if_pos hcond]
  · intro secret body sig h
    unfold verifyGitLabSignatureT at h
    split_ifs at h with h1 h2 h3 h4 h5
    all_goals simp_all
  · intro secret body sig
    unfold verifyGitLabSignatureT verifyGitLabSignature
    split_ifs <;> rfl

/-- C6 witness: with secret `"m"`, empty body and header `sha256=a` (hex part of
length 1), the instrumented verifier returns false without reaching the
constant-time comparison. -/
theorem claim_C6_length_mismatch_rejected_witness :
    verifyGitLabSignatureT [109] [] (sha256HeaderTag ++ [97]) = (false, false) :=
  claim_C6_length_mismatch_rejected.1 [109] [] [97] (by decide) (by decide)

/-- C6 counterexample: when the configured secret is itself the string
`sha256=x`, the header `sha256=x` has the `sha256=<hex>` form with a
1-character hex part, yet `verifyGitLabSignature` returns true (through the
direct-token branch), not false as the claim states. -/
theorem claim_C6_counterexample :
    verifyGitLabSignature (sha256HeaderTag ++ [120]) [] (sha256HeaderTag ++ [120]) = true ∧
    ((sha256HeaderTag ++ [120]).drop 7).length ≠ 64 := by
  decide

/-! ## extractAIInstructions (src/utils/webhook.ts)

A hand evaluation of the ECMAScript regular expression
`/@(claude|codex)(?:\[([^\]]+)\])?\s+([\s\S]*?)(?=@\w+|$)/i` on this concrete
pattern: leftmost match wins; the optional bracket group is greedy and its
`[^\]]+` body admits exactly the characters up to the first `]`; `\s+` is
greedy; the lazy third group ends at the first position where `@\w+` matches
or at end of input. -/

/-- The ECMAScript `\s` class (and the set `String.prototype.trim` removes)
for patterns without the `u` flag. -/
def isJsSpace (c : Char) : Bool :=
  decide (c.toNat = 9 ∨ c.toNat = 10 ∨ c.toNat = 11 ∨ c.toNat = 12 ∨ c.toNat = 13 ∨
    c.toNat = 32 ∨ c.toNat = 160 ∨ c.toNat = 5760 ∨ (8192 ≤ c.toNat ∧ c.toNat ≤ 8202) ∨
    c.toNat = 8232 ∨ c.toNat = 8233 ∨ c.toNat = 8239 ∨ c.toNat = 8287 ∨ c.toNat = 12288 ∨
    c.toNat = 65279)

/-- ASCII lowercasing; in non-Unicode mode a lowercase ASCII pattern letter
matches exactly its two ASCII case variants. -/
def asciiToLower (c : Char) : Char :=
  if 'A' ≤ c ∧ c ≤ 'Z' then Char.ofNat (c.toNat + 32) else c

/-- The ECMAScript `\w` class `[A-Za-z0-9_]`. -/
def isWordChar (c : Char) : Bool :=
  decide (('a' ≤ c ∧ c ≤ 'z') ∨ ('A' ≤ c ∧ c ≤ 'Z') ∨ ('0' ≤ c ∧ c ≤ '9') ∨ c = '_')

/-- Strip a lowercase literal pattern case-insensitively off the front. -/
def stripCI : List Char → List Char → Option (List Char)
  | [], s => some s
  | _ :: _, [] => none
  | p :: ps, c :: cs => if asciiToLower c = p then stripCI ps cs else none

/-- The lazy group `([\s\S]*?)` bounded by the lookahead `(?=@\w+|$)`: take
characters up to the first `@` followed by a word character, or the end. -/
def takeCommand : List Char → List Char
  | [] => []
  | c :: rest =>
      if c = '@' then
        match rest with
        | c2 :: _ => if isWordChar c2 then [] else c :: takeCommand rest
        | [] => [c]
      else c :: takeCommand rest

/-- The supported providers (the `AIProvider` union type). -/
inductive AIProvider
  | claude
  | codex
deriving DecidableEq, Repr

/-- The raw capture groups of one successful match of the mention pattern. -/
structure RawMatch where
  provider : AIProvider
  paramsStr : Option (List Char)
  commandRaw : List Char
deriving DecidableEq, Repr

/-- After the provider name: `\s+` then the command group. -/
def spacesThenCommand (params : Option (List Char)) :
    List Char → Option (Option (List Char) × List Char)
  | [] => none
  | c :: cs =>
      if isJsSpace c then some (params, takeCommand ((c :: cs).dropWhile isJsSpace))
      else none

/-- After the provider name: the optional greedy `(?:\[([^\]]+)\])?` (its body
is the run up to the first `]`, which must be non-empty), then `\s+`, then the
command group.  A failed bracket falls back to the empty optional group, whose
`\s+` then fails on the `[` itself. -/
def mentionRest : List Char → Option (Option (List Char) × List Char)
  | c :: cs =>
      if c = '[' then
        let content := cs.takeWhile (· ≠ ']')
        if content.length < cs.length ∧ content ≠ [] then
          spacesThenCommand (some content) (cs.drop (content.length + 1))
        else none
      else spacesThenCommand none (c :: cs)
  | [] => none

/-- Try to match the whole mention pattern at this position. -/
def matchMentionAt : List Char → Option RawMatch
  | [] => none
  | c :: rest =>
      if c = '@' then
        match stripCI ['c', 'l', 'a', 'u', 'd', 'e'] rest with
        | some r1 =>
            match mentionRest r1 with
            | some (ps, cmd) => some ⟨AIProvider.claude, ps, cmd⟩
            | none => none
        | none =>
            match stripCI ['c', 'o', 'd', 'e', 'x'] rest with
            | some r1 =>
                match mentionRest r1 with
                | some (ps, cmd) => some ⟨AIProvider.codex, ps, cmd⟩
                | none => none
            | none => none
      else none

/-- Leftmost match: scan positions left to right. -/
def findMention : List Char → Option RawMatch
  | [] => none
  | c :: rest =>
      match matchMentionAt (c :: rest) with
      | some m => some m
      | none => findMention rest

/-- `String.prototype.split` with a one-character separator. -/
def splitOnChar (sep : Char) : List Char → List (List Char)
  | [] => [[]]
  | c :: rest =>
      if c = sep then [] :: splitOnChar sep rest
      else
        match splitOnChar sep rest with
        | l :: ls => (c :: l) :: ls
        | [] => [[c]]

/-- `String.prototype.trim`. -/
def jsTrim (l : List Char) : List Char :=
  ((l.dropWhile isJsSpace).reverse.dropWhile isJsSpace).reverse

/-- Decimal value of a digit run. -/
def digitsToNat (l : List Char) : Nat :=
  l.foldl (fun acc c => acc * 10 + (c.toNat - 48)) 0

/-- `parseInt(value, 10)`: skip whitespace, optional sign, then a non-empty
leading digit run; `NaN` (here `none`) when no digits follow. -/
def jsParseInt (l : List Char) : Option Int :=
  let l1 := l.dropWhile isJsSpace
  let rest := match l1 with
    | '-' :: r => r
    | '+' :: r => r
    | _ => l1
  let sign : Int := match l1 with
    | '-' :: _ => -1
    | _ => 1
  let ds := rest.takeWhile Char.isDigit
  if ds = [] then none else some (sign * (digitsToNat ds : Int))

/-- One pass of the parameter loop: split one `key=value` pair on `=`, trim the
parts, skip a missing or empty key or value, and record a recognized `model`
or `timeout` (an unparsable timeout is dropped by the `isNaN` check). -/
def applyParam (acc : Option String × Option Int) (param : List Char) :
    Option String × Option Int :=
  match (splitOnChar '=' param).map jsTrim with
  | [] => acc
  | key :: rest =>
      match rest with
      | [] => acc
      | value :: _ =>
          if key = [] ∨ value = [] then acc
          else if key.map asciiToLower = ['m', 'o', 'd', 'e', 'l'] then
            (some (String.mk value), acc.2)
          else if key.map asciiToLower = ['t', 'i', 'm', 'e', 'o', 'u', 't'] then
            match jsParseInt value with
            | some t => (acc.1, some t)
            | none => acc
          else acc

/-- Parse the bracketed parameter list: split on commas, trim, fold the pairs. -/
def parseAIParams (ps : List Char) : Option String × Option Int :=
  ((splitOnChar ',' ps).map jsTrim).foldl applyParam (none, none)

/-- The extracted instruction (the `AIInstructionResult` interface). -/
structure AIInstructionResult where
  provider : AIProvider
  model : Option String
  timeout : Option Int
  command : String
deriving DecidableEq, Repr

/-- `extractAIInstructions(text)`: first mention wins; parameters parsed from
the optional bracket; an empty trimmed command yields `null`. -/
def extractAIInstructions (text : String) : Option AIInstructionResult :=
  if text = "" then none
  else
    match findMention text.toList with
    | none => none
    | some m =>
        let command := jsTrim m.commandRaw
        let mt := match m.paramsStr with
          | some ps => parseAIParams ps
          | none => (none, none)
        if command = [] then none
        else some ⟨m.provider, mt.1, mt.2, String.mk command⟩

theorem findMention_eq_none (l : List Char) (h : ∀ c ∈ l, c ≠ '@') :
    findMention l = none := by
  induction l with
  | nil => rfl
  | cons c rest ih =>
      have hc : c ≠ '@' := h c (by simp)
      simp only [findMention, matchMentionAt, if_neg hc]
      exact ih fun x hx => h x (by simp [hx])

set_option maxRecDepth 40000 in
/-- C2: the extractor honors the first recognized mention; `"@claude fix bug"`
yields provider claude with command `"fix bug"`;
`"@codex[model=m1,timeout=20] do X"` yields codex with model `"m1"`, timeout
`20` and command `"do X"`; bracketed pairs with an unrecognized key or a
missing key or value are ignored; text with no recognized mention, and a
mention whose command is empty after trimming, both yield `null`. -/
theorem claim_C2_extract_instructions :
    extractAIInstructions "@claude fix bug" =
      some ⟨AIProvider.claude, none, none, "fix bug"⟩ ∧
    extractAIInstructions "@codex[model=m1,timeout=20] do X" =
      some ⟨AIProvider.codex, some "m1", some 20, "do X"⟩ ∧
    extractAIInstructions "@claude fix bug @codex also this" =
      some ⟨AIProvider.claude, none, none, "fix bug"⟩ ∧
    extractAIInstructions "@codex[foo=m1,timeout=20] do X" =
      some ⟨AIProvider.codex, none, some 20, "do X"⟩ ∧
    extractAIInstructions "@codex[=m1,model=,timeout=20] do X" =
      some ⟨AIProvider.codex, none, some 20, "do X"⟩ ∧
    extractAIInstructions "@claude   " = none ∧
    (∀ s : String, (∀ c ∈ s.toList, c ≠ '@') → extractAIInstructions s = none) := by
  refine ⟨by decide, by decide, by decide, by decide, by decide, by decide, ?_⟩
  intro s h
  unfold extractAIInstructions
  by_cases he : s = ""
  · simp [he]
  · rw [if_neg he, findMention_eq_none s.toList h]

/-- C2 witness: the no-mention conjunct applied to a concrete text. -/
theorem claim_C2_extract_instructions_witness :
    extractAIInstructions "Some text without ai instruction" = none :=
  claim_C2_extract_instructions.2.2.2.2.2.2 "Some text without ai instruction" (by decide)

/-! ## EventProcessor and ProjectManager orchestration (trace model)

`processEvent` / `executeInstruction` / `handleSuccess` / `handleFailure` from
src/services/eventProcessor.ts and `cleanup` / `getChangedFiles` from
src/services/projectManager.ts.  Each collaborator call is recorded as an
event; a fallible collaborator's result (success value or thrown error) enters
as an `Except` parameter; the filesystem is the list of existing workspace
directories, on which `fs.rm(path, {recursive, force})` always succeeds (a
removal error is logged only and cannot alter control flow).  The
`claude-<timestamp>-<random>` branch name and the `MRGenerator.generateMR`
output are environment-dependent values of `executeInstruction`'s run and
enter as parameters. -/

/-- One entry of the executor's change set. -/
structure FileChange where
  path : String
  ctype : String
deriving DecidableEq, Repr

/-- The executor's `ProcessResult`. -/
structure ProcessResult where
  success : Bool
  output : String := ""
  error : String := ""
  changes : List FileChange := []
deriving Repr

/-- Outward-visible operations of one run. -/
inductive GEv
  | createComment (msg : String)
  | updateComment (msg : String)
  | postComment (msg : String)
  | createBranch (name : String)
  | pushBranch (name : String)
  | createMR (source target : String)
  | prepareWs (path : String)
  | runAgent
  | cleanupWs (path : String)
deriving DecidableEq, Repr

/-- Run state: existing workspace directories and the event trace. -/
structure OrchState where
  fs : List String
  trace : List GEv

/-- Append one event to the trace. -/
def OrchState.log (st : OrchState) (e : GEv) : OrchState :=
  { st with trace := st.trace ++ [e] }

/-- `ProjectManager.cleanup`: `fs.rm(projectPath, {recursive: true, force:
true})`, whose environmental outcome is `rmOutcome`.  On success the directory
is gone; a removal failure is caught and logged only — the call still returns
normally, but the directory persists. -/
def cleanup (rmOutcome : Except String Unit) (projectPath : String) (st : OrchState) :
    OrchState :=
  match rmOutcome with
  | Except.ok _ =>
      { fs := st.fs.filter (· ≠ projectPath), trace := st.trace ++ [GEv.cleanupWs projectPath] }
  | Except.error _ => { st with trace := st.trace ++ [GEv.cleanupWs projectPath] }

/-- `ProjectManager.prepareProject` on its successful path: the fresh unique
directory now exists and holds the clone. -/
def prepareProject (projectPath : String) (st : OrchState) : OrchState :=
  { fs := projectPath :: st.fs, trace := st.trace ++ [GEv.prepareWs projectPath] }

/-- `MRGenerator.generateMR` output consumed by `handleSuccess`. -/
structure MRInfo where
  title : String
  description : String
  commitMessage : String

/-- The environment-dependent inputs and collaborator outcomes of the publish
phase of `handleSuccess`. -/
structure PublishOracle where
  branchName : String
  createBranchOutcome : Except String Unit
  pushOutcome : Except String Unit
  createMROutcome : Except String Nat
  postCommentOutcome : Except String Unit
  mrInfo : MRInfo

/-- The `- type: \`path\`` lines of the changes list. -/
def changesLines : List FileChange → String
  | [] => ""
  | c :: rest => "- " ++ c.ctype ++ ": `" ++ c.path ++ "`\n" ++ changesLines rest

/-- The response prefix of `handleSuccess`: the success banner, then the
agent's output when non-empty. -/
def successBaseMsg (output : String) : String :=
  "✅ Claude processed your request successfully.\n\n" ++
    (if output ≠ "" then output ++ "\n\n" else "")

/-- `postComment`: the comment API call, which may throw. -/
def postComment (outcome : Except String Unit) (msg : String) (st : OrchState) :
    Except String Unit × OrchState :=
  (outcome, st.log (GEv.postComment msg))

/-- `EventProcessor.handleSuccess`: report success; when the change set is
non-empty, try branch creation, commit/push and merge-request creation (a
failure in that block is caught and folded into the message); otherwise note
that no file changes were made; finally post the terminal comment. -/
def handleSuccess (webUrl : String) (result : ProcessResult) (baseBranch : String)
    (po : PublishOracle) (st : OrchState) : Except String Unit × OrchState :=
  let msg2 := successBaseMsg result.output
  if 0 < result.changes.length then
    let msg3 := msg2 ++ "**Changes made:**\n" ++ changesLines result.changes ++ "\n"
    let failNote := fun (e : String) =>
      msg3 ++ "⚠️ **Note:** Changes were made but could not create merge request: " ++ e ++ "\n\n"
    let step :=
      match po.createBranchOutcome with
      | Except.error e => (failNote e, st.log (GEv.createBranch po.branchName))
      | Except.ok () =>
          let st1 := ((st.log (GEv.createBranch po.branchName)).log
            (GEv.updateComment ("Created branch: " ++ po.branchName)))
          match po.pushOutcome with
          | Except.error e => (failNote e, st1.log (GEv.pushBranch po.branchName))
          | Except.ok () =>
              let st2 := st1.log (GEv.pushBranch po.branchName)
              match po.createMROutcome with
              | Except.error e => (failNote e, st2.log (GEv.createMR po.branchName baseBranch))
              | Except.ok iid =>
                  let mrUrl := webUrl ++ "/-/merge_requests/" ++ toString iid
                  (msg3 ++ "**🔀 Merge Request Created**\n" ++
                     "[Click here to review and merge the changes →](" ++ mrUrl ++ ")\n\n" ++
                     "**Branch:** `" ++ po.branchName ++ "` → `" ++ baseBranch ++ "`\n",
                   (st2.log (GEv.createMR po.branchName baseBranch)).log
                     (GEv.updateComment ("Created merge request: " ++ mrUrl)))
    postComment po.postCommentOutcome step.1 step.2
  else
    postComment po.postCommentOutcome (msg2 ++ "📋 No file changes were made.\n") st

/-- `EventProcessor.handleFailure`: post the error comment. -/
def handleFailure (result : ProcessResult) (postOutcome : Except String Unit)
    (st : OrchState) : Except String Unit × OrchState :=
  postComment postOutcome
    ("❌ Claude encountered an error while processing your request:\n\n```\n" ++
      result.error ++ "\n```") st

/-- The initial progress comment of `executeInstruction` (command truncated to
100 characters). -/
def initialProgressMessage (command : String) : String :=
  "🚀 Claude is starting to work on your request...\n\n**Task:** " ++
    String.mk (command.toList.take 100) ++
    (if 100 < command.toList.length then "..." else "") ++ "\n\n---\n\n⏳ Processing..."

/-- The `try` block of `executeInstruction`: run the agent (whose call may
also reject), then dispatch on `result.success`. -/
def executeInstructionTry (webUrl baseBranch : String)
    (agentOutcome : Except String ProcessResult) (po : PublishOracle)
    (failPostOutcome : Except String Unit) (st : OrchState) :
    Except String Unit × OrchState :=
  match agentOutcome with
  | Except.error e => (Except.error e, st.log GEv.runAgent)
  | Except.ok result =>
      let st1 := st.log GEv.runAgent
      if result.success then handleSuccess webUrl result baseBranch po st1
      else handleFailure result failPostOutcome st1

/-- `EventProcessor.executeInstruction`: create the initial progress comment
(internally caught, never throws), prepare the workspace, run the `try` block,
and in `finally` always invoke `cleanup` on the workspace before returning or
re-throwing; the removal outcome `rmOutcome` cannot alter the returned
result. -/
def executeInstruction (webUrl command projectPath baseBranch : String)
    (agentOutcome : Except String ProcessResult) (po : PublishOracle)
    (failPostOutcome rmOutcome : Except String Unit) (st : OrchState) :
    Except String Unit × OrchState :=
  let st1 := prepareProject projectPath
    (st.log (GEv.createComment (initialProgressMessage command)))
  let inner := executeInstructionTry webUrl baseBranch agentOutcome po failPostOutcome st1
  (inner.1, cleanup rmOutcome projectPath inner.2)

/-- `EventProcessor.processEvent`: extract the instruction (the extraction may
itself throw), return silently when there is none, otherwise run it; any error
is caught and reported through `reportError`, whose own comment failure is
swallowed. -/
def processEvent (webUrl projectPath baseBranch : String)
    (extraction : Except String (Option String))
    (agentOutcome : Except String ProcessResult) (po : PublishOracle)
    (failPostOutcome rmOutcome : Except String Unit) (st : OrchState) :
    Except String Unit × OrchState :=
  let step :=
    match extraction with
    | Except.error e => (Except.error e, st)
    | Except.ok none => (Except.ok (), st)
    | Except.ok (some command) =>
        executeInstruction webUrl command projectPath baseBranch agentOutcome po
          failPostOutcome rmOutcome st
  match step.1 with
  | Except.error e =>
      (Except.ok (), step.2.log (GEv.postComment
        ("🚨 Internal error occurred while processing your Claude request:\n\n```\n" ++
          e ++ "\n```")))
  | Except.ok () => (Except.ok (), step.2)

/-! ## getChangedFiles (src/services/projectManager.ts) -/

/-- One entry of `simple-git`'s status report. -/
structure StatusFile where
  path : String
  working_dir : Char
deriving DecidableEq, Repr

/-- The `git.status()` result consumed by `getChangedFiles`. -/
structure StatusResult where
  files : List StatusFile
deriving DecidableEq, Repr

/-- `ProjectManager.getChangedFiles`: map the status entries, classifying by
the working-dir flag; a thrown status error is caught and the empty list
returned. -/
def getChangedFiles (status : Except String StatusResult) : List FileChange :=
  match status with
  | Except.error _ => []
  | Except.ok s =>
      s.files.map fun f =>
        ⟨f.path, if f.working_dir = '?' then "created"
                 else if f.working_dir = 'D' then "deleted" else "modified"⟩

/-- Classification of one reported working-tree entry in the words of the
spec: untracked (working-dir flag `?`) maps to created, tracked-deleted
(working-dir flag `D`) maps to deleted, every other flag maps to modified,
with the path preserved. -/
def specClassifyEntry (f : StatusFile) : FileChange :=
  ⟨f.path, if f.working_dir = '?' then "created"
           else if f.working_dir = 'D' then "deleted" else "modified"⟩

/-! ## Shared facts about cleanup and handleSuccess -/

theorem cleanup_trace (rmOutcome : Except String Unit) (projectPath : String)
    (st : OrchState) :
    (cleanup rmOutcome projectPath st).trace = st.trace ++ [GEv.cleanupWs projectPath] := by
  cases rmOutcome with
  | ok u => rfl
  | error e => rfl

theorem handleSuccess_no_changes (webUrl : String) (result : ProcessResult)
    (baseBranch : String) (po : PublishOracle) (st : OrchState)
    (h : result.changes = []) :
    (handleSuccess webUrl result baseBranch po st).2.trace =
      st.trace ++
        [GEv.postComment (successBaseMsg result.output ++ "📋 No file changes were made.\n")] ∧
    (handleSuccess webUrl result baseBranch po st).1 = po.postCommentOutcome := by
  simp [handleSuccess, h, postComment, OrchState.log]

theorem handleSuccess_publish_events_need_changes (webUrl : String)
    (result : ProcessResult) (baseBranch : String) (po : PublishOracle)
    (fs : List String) (ev : GEv)
    (hmem : ev ∈ (handleSuccess webUrl result baseBranch po ⟨fs, []⟩).2.trace)
    (hch : result.changes = []) :
    ev = GEv.postComment (successBaseMsg result.output ++ "📋 No file changes were made.\n") := by
  rw [(handleSuccess_no_changes webUrl result baseBranch po ⟨fs, []⟩ hch).1] at hmem
  simpa using hmem

/-! ## Claims C3, C5, C7, C8, C10 -/

/-- C3 (amended): for every agent outcome (success, failure, rejection), every
publish outcome and every terminal-comment outcome, once `executeInstruction`
returns (normally or by re-throwing), `cleanup` has been invoked on the
workspace directory prepared by `prepareProject` — and whenever the recursive
removal succeeds, the directory no longer exists; a removal failure is logged
only and cannot change `executeInstruction`'s returned result. -/
theorem claim_C3_cleanup_always_runs (webUrl command projectPath baseBranch : String)
    (agentOutcome : Except String ProcessResult) (po : PublishOracle)
    (failPostOutcome : Except String Unit) (st : OrchState) :
    (∀ rmOutcome : Except String Unit,
       GEv.prepareWs projectPath ∈
         (executeInstruction webUrl command projectPath baseBranch agentOutcome po
           failPostOutcome rmOutcome st).2.trace ∧
       GEv.cleanupWs projectPath ∈
         (executeInstruction webUrl command projectPath baseBranch agentOutcome po
           failPostOutcome rmOutcome st).2.trace) ∧
    projectPath ∉
      (executeInstruction webUrl command projectPath baseBranch agentOutcome po
        failPostOutcome (Except.ok ()) st).2.fs ∧
    (∀ e : String,
       (executeInstruction webUrl command projectPath baseBranch agentOutcome po
         failPostOutcome (Except.error e) st).1 =
       (executeInstruction webUrl command projectPath baseBranch agentOutcome po
         failPostOutcome (Except.ok ()) st).1) := by
  refine ⟨fun rmOutcome => ⟨?_, ?_⟩, ?_, fun e => rfl⟩
  · have hpre : GEv.prepareWs projectPath ∈
        (prepareProject projectPath
          (st.log (GEv.createComment (initialProgressMessage command)))).trace := by
      simp [prepareProject]
    have hmono : ∀ st2 : OrchState,
        (executeInstructionTry webUrl baseBranch agentOutcome po failPostOutcome st2).2.trace =
          st2.trace ++
            ((executeInstructionTry webUrl baseBranch agentOutcome po failPostOutcome
              st2).2.trace.drop st2.trace.length) := by
      intro st2
      rcases agentOutcome with e | result
      · simp [executeInstructionTry, OrchState.log]
      · by_cases hs : result.success
        · simp only [executeInstructionTry, hs, if_true]
          by_cases hch : 0 < result.changes.length
          · simp only [handleSuccess, hch, if_true, postComment]
            rcases po.createBranchOutcome with e | u
            · simp [OrchState.log]
            · rcases po.pushOutcome with e | u
              · simp [OrchState.log]
              · rcases po.createMROutcome with e | iid
                · simp [OrchState.log]
                · simp [OrchState.log]
          · simp [handleSuccess, hch, postComment, OrchState.log]
        · simp [executeInstructionTry, hs, handleFailure, postComment, OrchState.log]
    simp only [executeInstruction, cleanup_trace]
    rw [hmono]
    simp only [List.mem_append]
    exact Or.inl (Or.inl hpre)
  · simp [executeInstruction, cleanup_trace]
  · simp [executeInstruction, cleanup]

/-- C3 counterexample: when the recursive removal itself fails — the source's
catch logs the failure and returns normally — the workspace directory still
exists after `executeInstruction` returns, even though `cleanup` was invoked
on it; so "the workspace directory no longer exists" does not hold on every
execution path. -/
theorem claim_C3_counterexample :
    GEv.cleanupWs "/work/ws1" ∈
      (executeInstruction "https://g/p" "cmd" "/work/ws1" "main"
        (Except.ok ⟨true, "", "", []⟩)
        ⟨"claude-b", Except.ok (), Except.ok (), Except.ok 1, Except.ok (), ⟨"t", "d", "c"⟩⟩
        (Except.ok ()) (Except.error "EACCES: permission denied") ⟨[], []⟩).2.trace ∧
    "/work/ws1" ∈
      (executeInstruction "https://g/p" "cmd" "/work/ws1" "main"
        (Except.ok ⟨true, "", "", []⟩)
        ⟨"claude-b", Except.ok (), Except.ok (), Except.ok 1, Except.ok (), ⟨"t", "d", "c"⟩⟩
        (Except.ok ()) (Except.error "EACCES: permission denied") ⟨[], []⟩).2.fs := by
  refine ⟨by decide, by decide⟩

/-- C5: a successful run with an empty change set adds exactly one event — the
terminal comment stating that no file changes were made — and in particular
attempts no branch creation, no commit/push and no merge request; conversely a
branch, push, or merge-request event can only occur when the change set is
non-empty. -/
theorem claim_C5_no_changes_no_publish :
    (∀ (webUrl : String) (result : ProcessResult) (baseBranch : String)
       (po : PublishOracle) (st : OrchState), result.changes = [] →
       (handleSuccess webUrl result baseBranch po st).2.trace =
         st.trace ++
           [GEv.postComment
             (successBaseMsg result.output ++ "📋 No file changes were made.\n")] ∧
       (handleSuccess webUrl result baseBranch po st).1 = po.postCommentOutcome) ∧
    (∀ (webUrl : String) (result : ProcessResult) (baseBranch : String)
       (po : PublishOracle) (fs : List String) (b : String),
       GEv.createBranch b ∈ (handleSuccess webUrl result baseBranch po ⟨fs, []⟩).2.trace →
       result.changes ≠ []) ∧
    (∀ (webUrl : String) (result : ProcessResult) (baseBranch : String)
       (po : PublishOracle) (fs : List String) (b : String),
       GEv.pushBranch b ∈ (handleSuccess webUrl result baseBranch po ⟨fs, []⟩).2.trace →
       result.changes ≠ []) ∧
    (∀ (webUrl : String) (result : ProcessResult) (baseBranch : String)
       (po : PublishOracle) (fs : List String) (s t : String),
       GEv.createMR s t ∈ (handleSuccess webUrl result baseBranch po ⟨fs, []⟩).2.trace →
       result.changes ≠ []) := by
  refine ⟨fun webUrl result baseBranch po st h =>
    handleSuccess_no_changes webUrl result baseBranch po st h, ?_, ?_, ?_⟩
  · intro webUrl result baseBranch po fs b hmem hch
    exact absurd (handleSuccess_publish_events_need_changes webUrl result baseBranch po fs
      _ hmem hch) (by simp)
  · intro webUrl result baseBranch po fs b hmem hch
    exact absurd (handleSuccess_publish_events_need_changes webUrl result baseBranch po fs
      _ hmem hch) (by simp)
  · intro webUrl result baseBranch po fs s t hmem hch
    exact absurd (handleSuccess_publish_events_need_changes webUrl result baseBranch po fs
      _ hmem hch) (by simp)

/-- C5 witness: the no-changes branch on a concrete successful result. -/
theorem claim_C5_no_changes_no_publish_witness :
    (handleSuccess "https://g/p" ⟨true, "", "", []⟩ "main"
      ⟨"claude-b", Except.ok (), Except.ok (), Except.ok 1, Except.ok (), ⟨"t", "d", "c"⟩⟩
      ⟨[], []⟩).2.trace =
      [GEv.postComment
        ("✅ Claude processed your request successfully.\n\n📋 No file changes were made.\n")] := by
  have h := (claim_C5_no_changes_no_publish.1 "https://g/p" ⟨true, "", "", []⟩ "main"
    ⟨"claude-b", Except.ok (), Except.ok (), Except.ok 1, Except.ok (), ⟨"t", "d", "c"⟩⟩
    ⟨[], []⟩ rfl).1
  simpa [successBaseMsg] using h

/-- C7: `getChangedFiles` returns one entry per reported status file, keeping
its path and classifying it exactly as the spec words it: working-dir flag `?`
(untracked) to created, `D` (tracked-deleted) to deleted, anything else to
modified. -/
theorem claim_C7_changed_files_classification (s : StatusResult) :
    (getChangedFiles (Except.ok s)).length = s.files.length ∧
    List.Forall₂ (fun f c => c.path = f.path ∧ c = specClassifyEntry f)
      s.files (getChangedFiles (Except.ok s)) := by
  constructor
  · simp [getChangedFiles]
  · simp only [getChangedFiles]
    induction s.files with
    | nil => exact List.Forall₂.nil
    | cons f rest ih => exact List.Forall₂.cons ⟨rfl, rfl⟩ ih

/-- C8: when instruction extraction yields no instruction, `processEvent`
returns normally with the state exactly as it was: no comment of any kind, no
workspace preparation, no agent run, and no error. -/
theorem claim_C8_no_instruction_silent (webUrl projectPath baseBranch : String)
    (agentOutcome : Except String ProcessResult) (po : PublishOracle)
    (failPostOutcome rmOutcome : Except String Unit) (st : OrchState) :
    processEvent webUrl projectPath baseBranch (Except.ok none) agentOutcome po
      failPostOutcome rmOutcome st = (Except.ok (), st) := rfl

/-! ## Streaming executors (streamingClaudeExecutor.ts, codexExecutor.ts)

The inner `runClaudeCommandStreaming` / `runCodexCommandStreaming` promise:
its settled-once promise state, the `callback.onError` invocations, the
progress throttling, and the timeout / close / error handlers.  Wall-clock
instants (`Date.now()`) are integers supplied with each incoming chunk or
event; the texts involved are ASCII, so a JavaScript string is a list of
characters. -/

/-- A JavaScript promise settles at most once; later `resolve`/`reject` calls
are ignored. -/
inductive PromiseState
  | pending
  | resolved (output : String)
  | rejected (err : String)
deriving DecidableEq, Repr

/-- `resolve` settles a pending promise and is otherwise a no-op. -/
def PromiseState.resolve (v : String) : PromiseState → PromiseState
  | .pending => .resolved v
  | s => s

/-- `reject` settles a pending promise and is otherwise a no-op. -/
def PromiseState.reject (e : String) : PromiseState → PromiseState
  | .pending => .rejected e
  | s => s

/-- Does `pat` occur as a contiguous run (`String.prototype.includes`)? -/
def containsSeq (pat : List Char) : List Char → Bool
  | [] => pat.isEmpty
  | c :: rest => pat.isPrefixOf (c :: rest) || containsSeq pat rest

/-- `String.prototype.slice(-n)`: the last `n` characters. -/
def sliceLast (n : Nat) (l : List Char) : List Char := l.drop (l.length - n)

/-- Template interpolation of the `close` code (`null` when the process was
killed by a signal). -/
def codeStr : Option Int → String
  | some n => toString n
  | none => "null"

/-- `StreamingClaudeExecutor.extractProgressMessage`: last non-blank line of
the buffer, kept when it is 11–199 characters without DEBUG/INFO, dropped when
it is a bare generic error word, and prefixed `❌`/`🤖` by error-likeness. -/
def extractProgressMessage (buffer : List Char) : String :=
  let lines := (splitOnChar '\n' buffer).filter (fun l => jsTrim l ≠ [])
  match lines.getLast? with
  | none => ""
  | some lastLine =>
      if ¬ containsSeq "DEBUG".toList lastLine = true ∧
         ¬ containsSeq "INFO".toList lastLine = true ∧
         10 < lastLine.length ∧ lastLine.length < 200 then
        let lower := jsTrim (lastLine.map asciiToLower)
        if lower = "execution error".toList ∨ lower = "error".toList ∨
           lower = "failed".toList then ""
        else if containsSeq "error".toList lower ∨ containsSeq "failed".toList lower ∨
                containsSeq "exception".toList lower then
          "❌ " ++ String.mk (jsTrim lastLine)
        else "🤖 " ++ String.mk (jsTrim lastLine)
      else ""

/-- The stdout-side throttle state of the Claude executor: the last flush
instant, the pending buffer, and the emitted updates as
(instant, buffer length at the flush, message). -/
structure ClaudeStream where
  lastProgressTime : Int
  progressBuffer : List Char
  emitted : List (Int × Nat × String)

/-- One stdout chunk through the Claude throttle (lines 205–215): append to
the buffer; when more than two seconds have passed or the buffer exceeds 500
characters, extract and (if non-empty) emit a message, reset the buffer and
the clock. -/
def claudeChunkStep (st : ClaudeStream) (tc : Int × List Char) : ClaudeStream :=
  if 2000 < tc.1 - st.lastProgressTime ∨ 500 < (st.progressBuffer ++ tc.2).length then
    { lastProgressTime := tc.1,
      progressBuffer := [],
      emitted :=
        if extractProgressMessage (st.progressBuffer ++ tc.2) ≠ "" then
          st.emitted ++ [(tc.1, (st.progressBuffer ++ tc.2).length,
            extractProgressMessage (st.progressBuffer ++ tc.2))]
        else st.emitted }
  else { st with progressBuffer := st.progressBuffer ++ tc.2 }

/-- The Claude throttle run from initial clock `t0` over timed stdout chunks. -/
def claudeEmissions (t0 : Int) (chunks : List (Int × List Char)) : List (Int × Nat × String) :=
  (chunks.foldl claudeChunkStep ⟨t0, [], []⟩).emitted

/-- One parsed JSONL item of the Codex CLI stream. -/
structure CodexItem where
  itype : String := ""
  text : String := ""
  command : String := ""
  status : String := ""
deriving DecidableEq, Repr

/-- One parsed JSONL event of the Codex CLI stream. -/
structure CodexJSONEvent where
  etype : String
  item : Option CodexItem := none
  usage : Option (Option Nat × Option Nat) := none
  error : Option String := none
deriving DecidableEq, Repr

/-- `CodexExecutor.extractProgressFromEvent`: the human-readable status of one
event, empty when the event carries nothing to show. -/
def extractProgressFromEvent (e : CodexJSONEvent) : String :=
  if e.etype = "thread.started" then "🔄 Started processing..."
  else if e.etype = "turn.started" then "🤔 Analyzing request..."
  else if e.etype = "item.started" ∨ e.etype = "item.completed" then
    match e.item with
    | some item =>
        if item.itype = "reasoning" then
          (if item.text ≠ "" then "💭 " ++ item.text else "")
        else if item.itype = "command_execution" then
          (if item.status = "in_progress" then "⚙️ Running: " ++ item.command
           else if item.status = "completed" then "✓ Completed: " ++ item.command
           else "")
        else if item.itype = "file_change" then "📝 File changed"
        else ""
    | none => ""
  else if e.etype = "turn.completed" then
    match e.usage with
    | some u =>
        "📊 Tokens used: " ++ toString (u.1.getD 0) ++ " in, " ++ toString (u.2.getD 0) ++ " out"
    | none => ""
  else if e.etype = "error" then
    "❌ Error: " ++ (match e.error with
      | some s => if s ≠ "" then s else "Unknown error"
      | none => "Unknown error")
  else ""

/-- The Codex throttle state: the last emission instant and the emitted
updates as (instant, event type, message). -/
structure CodexThrottle where
  lastProgressTime : Int
  emitted : List (Int × String × String)

/-- One parsed event through the Codex throttle (lines 226–233): a non-empty
message is emitted when more than two seconds have passed since the last
emission or the event is a turn completion. -/
def codexProgressStep (st : CodexThrottle) (te : Int × CodexJSONEvent) : CodexThrottle :=
  if extractProgressFromEvent te.2 ≠ "" then
    if 2000 < te.1 - st.lastProgressTime ∨ te.2.etype = "turn.completed" then
      { lastProgressTime := te.1,
        emitted := st.emitted ++ [(te.1, te.2.etype, extractProgressFromEvent te.2)] }
    else st
  else st

/-- The Codex throttle run from initial clock `t0` over timed parsed events. -/
def codexEmissions (t0 : Int) (evs : List (Int × CodexJSONEvent)) :
    List (Int × String × String) :=
  (evs.foldl codexProgressStep ⟨t0, []⟩).emitted

/-! ### The run promise machines -/

/-- External events reaching `runClaudeCommandStreaming`'s handlers. -/
inductive ClaudeEv
  | stdout (t : Int) (chunk : List Char)
  | stderr (chunk : List Char)
  | timeoutFire
  | close (code : Option Int)
  | procError (msg : String)

/-- The state of one `runClaudeCommandStreaming` promise. -/
structure ClaudeRun where
  output : List Char
  errorOutput : List Char
  stream : ClaudeStream
  stderrEmits : List String
  flushEmits : List String
  promise : PromiseState
  onErrorMsgs : List String
  timerActive : Bool
  killed : Bool

/-- The enhanced error message of the Claude `close` handler for a non-zero
exit code: stderr if any, else error-looking stdout lines, else a stdout tail,
else the bare exit code. -/
def claudeCloseErrorMessage (code : Option Int) (output errorOutput : List Char) : String :=
  if jsTrim errorOutput ≠ [] then String.mk (jsTrim errorOutput)
  else
    if containsSeq "error".toList (output.map asciiToLower) ∨
       containsSeq "failed".toList (output.map asciiToLower) ∨
       containsSeq "exception".toList (output.map asciiToLower) then
      let errorLines := (splitOnChar '\n' output).filter fun line =>
        containsSeq "error".toList (line.map asciiToLower) ||
          containsSeq "failed".toList (line.map asciiToLower) ||
          containsSeq "exception".toList (line.map asciiToLower)
      if errorLines ≠ [] then String.mk (List.intercalate ['\n'] errorLines)
      else if jsTrim (sliceLast 500 output) ≠ [] then String.mk (jsTrim (sliceLast 500 output))
      else "Command exited with code " ++ codeStr code
    else
      "Command exited with code " ++ codeStr code ++ ". Output: " ++
        (if jsTrim (sliceLast 200 output) ≠ [] then String.mk (jsTrim (sliceLast 200 output))
         else "No output")

/-- One handler dispatch of `runClaudeCommandStreaming`: stdout feeds the
throttle; stderr streams a `⚠️ Error:` update immediately; the timer, when
still armed, kills the process, invokes `onError` once and rejects; `close`
clears the timer, flushes the pending buffer, and resolves or rejects; a
process error clears the timer and rejects.  Settling an already-settled
promise is a no-op. -/
def claudeStep (timeoutMs : Nat) (st : ClaudeRun) : ClaudeEv → ClaudeRun
  | .stdout t chunk =>
      { st with output := st.output ++ chunk, stream := claudeChunkStep st.stream (t, chunk) }
  | .stderr chunk =>
      { st with
        errorOutput := st.errorOutput ++ chunk,
        stderrEmits :=
          if jsTrim chunk ≠ [] then
            st.stderrEmits ++ ["⚠️ Error: " ++ String.mk (jsTrim chunk)]
          else st.stderrEmits }
  | .timeoutFire =>
      if st.timerActive then
        let rejMsg := "Claude execution timed out after " ++ toString timeoutMs ++ "ms"
        { st with
          timerActive := false,
          killed := true,
          onErrorMsgs := st.onErrorMsgs ++ ["⏰ Claude execution timed out"],
          promise := st.promise.reject rejMsg }
      else st
  | .close code =>
      let st1 := { st with timerActive := false }
      let st2 :=
        if jsTrim st1.stream.progressBuffer ≠ [] ∧
           extractProgressMessage st1.stream.progressBuffer ≠ "" then
          { st1 with flushEmits :=
              st1.flushEmits ++ [extractProgressMessage st1.stream.progressBuffer] }
        else st1
      if code = some 0 then
        { st2 with promise := st2.promise.resolve (String.mk (jsTrim st2.output)) }
      else
        let rejMsg := "Claude execution failed (code " ++ codeStr code ++ "): " ++
          claudeCloseErrorMessage code st2.output st2.errorOutput
        { st2 with promise := st2.promise.reject rejMsg }
  | .procError msg =>
      { st with
        timerActive := false,
        promise := st.promise.reject ("Failed to execute Claude: " ++ msg) }

/-- The initial promise state: timer armed, nothing emitted. -/
def claudeRunInit (t0 : Int) : ClaudeRun :=
  ⟨[], [], ⟨t0, [], []⟩, [], [], PromiseState.pending, [], true, false⟩

/-- Run the Claude promise machine over a sequence of handler events. -/
def claudeRunMachine (timeoutMs : Nat) (t0 : Int) (evs : List ClaudeEv) : ClaudeRun :=
  evs.foldl (claudeStep timeoutMs) (claudeRunInit t0)

/-- External events reaching `runCodexCommandStreaming`'s handlers; a stdout
chunk carries its raw text and its parsed JSONL events with their instants. -/
inductive CodexEv
  | stdout (raw : List Char) (events : List (Int × CodexJSONEvent))
  | stderr (chunk : List Char)
  | timeoutFire
  | close (code : Option Int)
  | procError (msg : String)

/-- The state of one `runCodexCommandStreaming` promise. -/
structure CodexRun where
  output : List Char
  errorOutput : List Char
  throttle : CodexThrottle
  lastAgentMessage : String
  stderrEmits : List String
  promise : PromiseState
  onErrorMsgs : List String
  timerActive : Bool
  killed : Bool

/-- One parsed event inside the Codex stdout handler: throttle it, and record
a non-empty `agent_message` text as the final output candidate. -/
def codexEventStep (st : CodexRun) (te : Int × CodexJSONEvent) : CodexRun :=
  let st1 := { st with throttle := codexProgressStep st.throttle te }
  match te.2.item with
  | some item =>
      if item.itype = "agent_message" ∧ item.text ≠ "" then
        { st1 with lastAgentMessage := item.text }
      else st1
  | none => st1

/-- One handler dispatch of `runCodexCommandStreaming`. -/
def codexStep (timeoutMs : Nat) (st : CodexRun) : CodexEv → CodexRun
  | .stdout raw events =>
      events.foldl codexEventStep { st with output := st.output ++ raw }
  | .stderr chunk =>
      { st with
        errorOutput := st.errorOutput ++ chunk,
        stderrEmits :=
          if jsTrim chunk ≠ [] then
            st.stderrEmits ++ ["⚠️ " ++ String.mk (jsTrim chunk)]
          else st.stderrEmits }
  | .timeoutFire =>
      if st.timerActive then
        let rejMsg := "Codex execution timed out after " ++ toString timeoutMs ++ "ms"
        { st with
          timerActive := false,
          killed := true,
          onErrorMsgs := st.onErrorMsgs ++ ["⏰ Codex execution timed out"],
          promise := st.promise.reject rejMsg }
      else st
  | .close code =>
      let st1 := { st with timerActive := false }
      if code = some 0 then
        let outMsg := if st1.lastAgentMessage ≠ "" then st1.lastAgentMessage
          else String.mk (jsTrim st1.output)
        { st1 with promise := st1.promise.resolve outMsg }
      else
        let em :=
          if jsTrim st1.errorOutput ≠ [] then String.mk (jsTrim st1.errorOutput)
          else "Command exited with code " ++ codeStr code ++ ". Output: " ++
            (if jsTrim (sliceLast 200 st1.output) ≠ [] then
               String.mk (jsTrim (sliceLast 200 st1.output))
             else "No output")
        let rejMsg := "Codex execution failed (code " ++ codeStr code ++ "): " ++ em
        { st1 with promise := st1.promise.reject rejMsg }
  | .procError msg =>
      { st with
        timerActive := false,
        promise := st.promise.reject ("Failed to execute Codex: " ++ msg) }

/-- The initial Codex promise state. -/
def codexRunInit (t0 : Int) : CodexRun :=
  ⟨[], [], ⟨t0, []⟩, "", [], PromiseState.pending, [], true, false⟩

/-- Run the Codex promise machine over a sequence of handler events. -/
def codexRunMachine (timeoutMs : Nat) (t0 : Int) (evs : List CodexEv) : CodexRun :=
  evs.foldl (codexStep timeoutMs) (codexRunInit t0)

/-! ### Promise and handler facts -/

theorem PromiseState.resolve_of_settled (v : String) (p : PromiseState)
    (h : p ≠ PromiseState.pending) : p.resolve v = p := by
  cases p with
  | pending => exact absurd rfl h
  | resolved o => rfl
  | rejected e => rfl

theorem PromiseState.reject_of_settled (e : String) (p : PromiseState)
    (h : p ≠ PromiseState.pending) : p.reject e = p := by
  cases p with
  | pending => exact absurd rfl h
  | resolved o => rfl
  | rejected e2 => rfl

theorem claudeStep_settled (timeoutMs : Nat) (st : ClaudeRun) (e : ClaudeEv)
    (hp : st.promise ≠ PromiseState.pending) (ht : st.timerActive = false) :
    (claudeStep timeoutMs st e).promise = st.promise ∧
    (claudeStep timeoutMs st e).onErrorMsgs = st.onErrorMsgs ∧
    (claudeStep timeoutMs st e).timerActive = false := by
  cases e with
  | stdout t chunk => exact ⟨rfl, rfl, ht⟩
  | stderr chunk => exact ⟨rfl, rfl, ht⟩
  | timeoutFire => simp [claudeStep, ht]
  | close code =>
      simp only [claudeStep]
      split_ifs <;>
        simp [PromiseState.resolve_of_settled _ _ hp, PromiseState.reject_of_settled _ _ hp]
  | procError msg => simp [claudeStep, PromiseState.reject_of_settled _ _ hp]

theorem claudeRun_foldl_settled (timeoutMs : Nat) (evs : List ClaudeEv) (st : ClaudeRun)
    (hp : st.promise ≠ PromiseState.pending) (ht : st.timerActive = false) :
    (evs.foldl (claudeStep timeoutMs) st).promise = st.promise ∧
    (evs.foldl (claudeStep timeoutMs) st).onErrorMsgs = st.onErrorMsgs := by
  induction evs generalizing st with
  | nil => exact ⟨rfl, rfl⟩
  | cons e rest ih =>
      obtain ⟨h1, h2, h3⟩ := claudeStep_settled timeoutMs st e hp ht
      rw [List.foldl_cons]
      obtain ⟨i1, i2⟩ := ih (claudeStep timeoutMs st e) (h1 ▸ hp) h3
      exact ⟨i1.trans h1, i2.trans h2⟩

theorem claudeRun_foldl_passive (timeoutMs : Nat) (evs : List ClaudeEv) (st : ClaudeRun)
    (h : ∀ e ∈ evs, (∃ t c, e = ClaudeEv.stdout t c) ∨ ∃ c, e = ClaudeEv.stderr c) :
    (evs.foldl (claudeStep timeoutMs) st).promise = st.promise ∧
    (evs.foldl (claudeStep timeoutMs) st).onErrorMsgs = st.onErrorMsgs ∧
    (evs.foldl (claudeStep timeoutMs) st).timerActive = st.timerActive := by
  induction evs generalizing st with
  | nil => exact ⟨rfl, rfl, rfl⟩
  | cons e rest ih =>
      have hstep : (claudeStep timeoutMs st e).promise = st.promise ∧
          (claudeStep timeoutMs st e).onErrorMsgs = st.onErrorMsgs ∧
          (claudeStep timeoutMs st e).timerActive = st.timerActive := by
        rcases h e (by simp) with ⟨t, c, rfl⟩ | ⟨c, rfl⟩ <;> exact ⟨rfl, rfl, rfl⟩
      rw [List.foldl_cons]
      obtain ⟨i1, i2, i3⟩ := ih (claudeStep timeoutMs st e) fun x hx => h x (by simp [hx])
      exact ⟨i1.trans hstep.1, i2.trans hstep.2.1, i3.trans hstep.2.2⟩

theorem codexEventStep_fields (st : CodexRun) (te : Int × CodexJSONEvent) :
    (codexEventStep st te).promise = st.promise ∧
    (codexEventStep st te).onErrorMsgs = st.onErrorMsgs ∧
    (codexEventStep st te).timerActive = st.timerActive := by
  unfold codexEventStep
  rcases te.2.item with _ | item
  · exact ⟨rfl, rfl, rfl⟩
  · simp only []
    split_ifs <;> exact ⟨rfl, rfl, rfl⟩

theorem codexEventStep_foldl_fields (events : List (Int × CodexJSONEvent)) (st : CodexRun) :
    (events.foldl codexEventStep st).promise = st.promise ∧
    (events.foldl codexEventStep st).onErrorMsgs = st.onErrorMsgs ∧
    (events.foldl codexEventStep st).timerActive = st.timerActive := by
  induction events generalizing st with
  | nil => exact ⟨rfl, rfl, rfl⟩
  | cons te rest ih =>
      rw [List.foldl_cons]
      obtain ⟨i1, i2, i3⟩ := ih (codexEventStep st te)
      obtain ⟨s1, s2, s3⟩ := codexEventStep_fields st te
      exact ⟨i1.trans s1, i2.trans s2, i3.trans s3⟩

theorem codexStep_settled (timeoutMs : Nat) (st : CodexRun) (e : CodexEv)
    (hp : st.promise ≠ PromiseState.pending) (ht : st.timerActive = false) :
    (codexStep timeoutMs st e).promise = st.promise ∧
    (codexStep timeoutMs st e).onErrorMsgs = st.onErrorMsgs ∧
    (codexStep timeoutMs st e).timerActive = false := by
  cases e with
  | stdout raw events =>
      obtain ⟨i1, i2, i3⟩ :=
        codexEventStep_foldl_fields events { st with output := st.output ++ raw }
      exact ⟨i1, i2, i3.trans ht⟩
  | stderr chunk => exact ⟨rfl, rfl, ht⟩
  | timeoutFire => simp [codexStep, ht]
  | close code =>
      simp only [codexStep]
      split_ifs <;>
        simp [PromiseState.resolve_of_settled _ _ hp, PromiseState.reject_of_settled _ _ hp]
  | procError msg => simp [codexStep, PromiseState.reject_of_settled _ _ hp]

theorem codexRun_foldl_settled (timeoutMs : Nat) (evs : List CodexEv) (st : CodexRun)
    (hp : st.promise ≠ PromiseState.pending) (ht : st.timerActive = false) :
    (evs.foldl (codexStep timeoutMs) st).promise = st.promise ∧
    (evs.foldl (codexStep timeoutMs) st).onErrorMsgs = st.onErrorMsgs := by
  induction evs generalizing st with
  | nil => exact ⟨rfl, rfl⟩
  | cons e rest ih =>
      obtain ⟨h1, h2, h3⟩ := codexStep_settled timeoutMs st e hp ht
      rw [List.foldl_cons]
      obtain ⟨i1, i2⟩ := ih (codexStep timeoutMs st e) (h1 ▸ hp) h3
      exact ⟨i1.trans h1, i2.trans h2⟩

theorem codexRun_foldl_passive (timeoutMs : Nat) (evs : List CodexEv) (st : CodexRun)
    (h : ∀ e ∈ evs, (∃ r es, e = CodexEv.stdout r es) ∨ ∃ c, e = CodexEv.stderr c) :
    (evs.foldl (codexStep timeoutMs) st).promise = st.promise ∧
    (evs.foldl (codexStep timeoutMs) st).onErrorMsgs = st.onErrorMsgs ∧
    (evs.foldl (codexStep timeoutMs) st).timerActive = st.timerActive := by
  induction evs generalizing st with
  | nil => exact ⟨rfl, rfl, rfl⟩
  | cons e rest ih =>
      have hstep : (codexStep timeoutMs st e).promise = st.promise ∧
          (codexStep timeoutMs st e).onErrorMsgs = st.onErrorMsgs ∧
          (codexStep timeoutMs st e).timerActive = st.timerActive := by
        rcases h e (by simp) with ⟨r, es, rfl⟩ | ⟨c, rfl⟩
        · exact codexEventStep_foldl_fields es _
        · exact ⟨rfl, rfl, rfl⟩
      rw [List.foldl_cons]
      obtain ⟨i1, i2, i3⟩ := ih (codexStep timeoutMs st e) fun x hx => h x (by simp [hx])
      exact ⟨i1.trans hstep.1, i2.trans hstep.2.1, i3.trans hstep.2.2⟩

/-! ## Claim C4 -/

/-- C4: in both executors, when the timeout fires during the run — after any
amount of stdout/stderr traffic and before the process has closed — the error
callback is invoked exactly once, with the timeout message, and the promise is
rejected with the timeout error; the process-close or process-error events
that follow the cancellation (and anything else) neither invoke the error
callback again nor change the settled rejection. -/
theorem claim_C4_timeout_single_error_signal :
    (∀ (timeoutMs : Nat) (t0 : Int) (evs0 evs1 : List ClaudeEv),
       (∀ e ∈ evs0, (∃ t c, e = ClaudeEv.stdout t c) ∨ ∃ c, e = ClaudeEv.stderr c) →
       (claudeRunMachine timeoutMs t0 (evs0 ++ ClaudeEv.timeoutFire :: evs1)).onErrorMsgs =
           ["⏰ Claude execution timed out"] ∧
         (claudeRunMachine timeoutMs t0 (evs0 ++ ClaudeEv.timeoutFire :: evs1)).promise =
           PromiseState.rejected
             ("Claude execution timed out after " ++ toString timeoutMs ++ "ms")) ∧
    (∀ (timeoutMs : Nat) (t0 : Int) (evs0 evs1 : List CodexEv),
       (∀ e ∈ evs0, (∃ r es, e = CodexEv.stdout r es) ∨ ∃ c, e = CodexEv.stderr c) →
       (codexRunMachine timeoutMs t0 (evs0 ++ CodexEv.timeoutFire :: evs1)).onErrorMsgs =
           ["⏰ Codex execution timed out"] ∧
         (codexRunMachine timeoutMs t0 (evs0 ++ CodexEv.timeoutFire :: evs1)).promise =
           PromiseState.rejected
             ("Codex execution timed out after " ++ toString timeoutMs ++ "ms")) := by
  constructor
  · intro timeoutMs t0 evs0 evs1 h0
    unfold claudeRunMachine
    rw [List.foldl_append, List.foldl_cons]
    obtain ⟨p1, p2, p3⟩ := claudeRun_foldl_passive timeoutMs evs0 (claudeRunInit t0) h0
    set mid := evs0.foldl (claudeStep timeoutMs) (claudeRunInit t0) with hmid
    have hfire : (claudeStep timeoutMs mid ClaudeEv.timeoutFire).promise =
        PromiseState.rejected
          ("Claude execution timed out after " ++ toString timeoutMs ++ "ms") ∧
        (claudeStep timeoutMs mid ClaudeEv.timeoutFire).onErrorMsgs =
          ["⏰ Claude execution timed out"] ∧
        (claudeStep timeoutMs mid ClaudeEv.timeoutFire).timerActive = false := by
      simp [claudeStep, p3, claudeRunInit, p1, p2, PromiseState.reject]
    obtain ⟨s1, s2⟩ := claudeRun_foldl_settled timeoutMs evs1
      (claudeStep timeoutMs mid ClaudeEv.timeoutFire) (by rw [hfire.1]; simp) hfire.2.2
    exact ⟨s2.trans hfire.2.1, s1.trans hfire.1⟩
  · intro timeoutMs t0 evs0 evs1 h0
    unfold codexRunMachine
    rw [List.foldl_append, List.foldl_cons]
    obtain ⟨p1, p2, p3⟩ := codexRun_foldl_passive timeoutMs evs0 (codexRunInit t0) h0
    set mid := evs0.foldl (codexStep timeoutMs) (codexRunInit t0) with hmid
    have hfire : (codexStep timeoutMs mid CodexEv.timeoutFire).promise =
        PromiseState.rejected
          ("Codex execution timed out after " ++ toString timeoutMs ++ "ms") ∧
        (codexStep timeoutMs mid CodexEv.timeoutFire).onErrorMsgs =
          ["⏰ Codex execution timed out"] ∧
        (codexStep timeoutMs mid CodexEv.timeoutFire).timerActive = false := by
      simp [codexStep, p3, codexRunInit, p1, p2, PromiseState.reject]
    obtain ⟨s1, s2⟩ := codexRun_foldl_settled timeoutMs evs1
      (codexStep timeoutMs mid CodexEv.timeoutFire) (by rw [hfire.1]; simp) hfire.2.2
    exact ⟨s2.trans hfire.2.1, s1.trans hfire.1⟩

/-- C4 witness: a concrete timed-out Claude run followed by the close event of
the killed process still shows one error callback and the timeout rejection. -/
theorem claim_C4_timeout_single_error_signal_witness :
    (claudeRunMachine 600000 0 [ClaudeEv.timeoutFire, ClaudeEv.close none]).onErrorMsgs =
        ["⏰ Claude execution timed out"] ∧
      (claudeRunMachine 600000 0 [ClaudeEv.timeoutFire, ClaudeEv.close none]).promise =
        PromiseState.rejected ("Claude execution timed out after " ++ toString 600000 ++ "ms") := by
  simpa using claim_C4_timeout_single_error_signal.1 600000 0 [] [ClaudeEv.close none]
    (by simp)

/-! ## Claim C9 -/

theorem chain'_le_cons_of_le {a b : Int} {l : List Int} (hab : a ≤ b)
    (h : List.Chain' (· ≤ ·) (b :: l)) : List.Chain' (· ≤ ·) (a :: l) := by
  cases l with
  | nil => simp
  | cons c rest =>
      rw [List.chain'_cons] at h ⊢
      exact ⟨le_trans hab h.1, h.2⟩

theorem codexProgressStep_cases (st : CodexThrottle) (te : Int × CodexJSONEvent) :
    codexProgressStep st te = st ∨
    (codexProgressStep st te =
       { lastProgressTime := te.1,
         emitted := st.emitted ++ [(te.1, te.2.etype, extractProgressFromEvent te.2)] } ∧
     (2000 < te.1 - st.lastProgressTime ∨ te.2.etype = "turn.completed")) := by
  unfold codexProgressStep
  split_ifs with h1 h2
  · exact Or.inr ⟨rfl, h2⟩
  · exact Or.inl rfl
  · exact Or.inl rfl

theorem codex_foldl_chain (evs : List (Int × CodexJSONEvent)) (st : CodexThrottle)
    (h1 : List.Chain' (fun a b : Int × String × String =>
            b.2.1 ≠ "turn.completed" → 2000 < b.1 - a.1) st.emitted)
    (h2 : ∀ x ∈ st.emitted.getLast?, x.1 = st.lastProgressTime) :
    List.Chain' (fun a b : Int × String × String =>
        b.2.1 ≠ "turn.completed" → 2000 < b.1 - a.1)
      (evs.foldl codexProgressStep st).emitted := by
  induction evs generalizing st with
  | nil => exact h1
  | cons te rest ih =>
      rw [List.foldl_cons]
      rcases codexProgressStep_cases st te with h | ⟨h, hgate⟩
      · rw [h]
        exact ih st h1 h2
      · rw [h]
        apply ih
        · rw [List.chain'_append]
          refine ⟨h1, List.chain'_singleton _, ?_⟩
          intro a ha y hy hne
          simp only [List.head?_cons, Option.mem_def, Option.some.injEq] at hy
          subst hy
          rcases hgate with hlt | hty
          · have := h2 a ha
            simp only []
            omega
          · exact absurd hty (by simpa using hne)
        · intro x hx
          simp only [List.getLast?_concat, Option.mem_def, Option.some.injEq] at hx
          subst hx
          rfl


theorem codex_foldl_emit_mono (evs : List (Int × CodexJSONEvent)) (st : CodexThrottle)
    (x : Int × String × String) (hx : x ∈ st.emitted) :
    x ∈ (evs.foldl codexProgressStep st).emitted := by
  induction evs generalizing st with
  | nil => exact hx
  | cons te rest ih =>
      rw [List.foldl_cons]
      rcases codexProgressStep_cases st te with h | ⟨h, -⟩
      · rw [h]
        exact ih st hx
      · rw [h]
        exact ih _ (List.mem_append_left _ hx)

theorem codex_turn_completed_emitted (evs : List (Int × CodexJSONEvent))
    (st : CodexThrottle) (t : Int) (e : CodexJSONEvent)
    (hmem : (t, e) ∈ evs) (htype : e.etype = "turn.completed")
    (hmsg : extractProgressFromEvent e ≠ "") :
    (t, e.etype, extractProgressFromEvent e) ∈ (evs.foldl codexProgressStep st).emitted := by
  induction evs generalizing st with
  | nil => cases hmem
  | cons te rest ih =>
      rw [List.foldl_cons]
      rcases List.mem_cons.mp hmem with heq | hmem'
      · have hstep : codexProgressStep st (t, e) =
            { lastProgressTime := t,
              emitted := st.emitted ++ [(t, e.etype, extractProgressFromEvent e)] } := by
          unfold codexProgressStep
          rw [if_pos hmsg, if_pos (Or.inr htype)]
        rw [← heq, hstep]
        exact codex_foldl_emit_mono rest _ _ (by simp)
      · exact ih _ hmem'

theorem claudeChunkStep_cases (st : ClaudeStream) (tc : Int × List Char) :
    claudeChunkStep st tc = { st with progressBuffer := st.progressBuffer ++ tc.2 } ∨
    ((claudeChunkStep st tc).lastProgressTime = tc.1 ∧
     ((claudeChunkStep st tc).emitted = st.emitted ∨
      ((claudeChunkStep st tc).emitted =
         st.emitted ++ [(tc.1, (st.progressBuffer ++ tc.2).length,
           extractProgressMessage (st.progressBuffer ++ tc.2))] ∧
       (2000 < tc.1 - st.lastProgressTime ∨ 500 < (st.progressBuffer ++ tc.2).length)))) := by
  unfold claudeChunkStep
  split_ifs with h1 h2
  · exact Or.inr ⟨rfl, Or.inr ⟨rfl, h1⟩⟩
  · exact Or.inr ⟨rfl, Or.inl rfl⟩
  · exact Or.inl rfl

theorem claude_foldl_chain (chunks : List (Int × List Char)) (st : ClaudeStream)
    (h1 : List.Chain' (fun a b : Int × Nat × String =>
            2000 < b.1 - a.1 ∨ 500 < b.2.1) st.emitted)
    (h2 : ∀ x ∈ st.emitted.getLast?, x.1 ≤ st.lastProgressTime)
    (h3 : List.Chain' (· ≤ ·) (st.lastProgressTime :: chunks.map Prod.fst)) :
    List.Chain' (fun a b : Int × Nat × String => 2000 < b.1 - a.1 ∨ 500 < b.2.1)
      (chunks.foldl claudeChunkStep st).emitted := by
  induction chunks generalizing st with
  | nil => exact h1
  | cons tc rest ih =>
      simp only [List.map_cons, List.chain'_cons] at h3
      obtain ⟨hle, h3'⟩ := h3
      rw [List.foldl_cons]
      rcases claudeChunkStep_cases st tc with h | ⟨hlast, hem⟩
      · rw [h]
        refine ih _ h1 h2 ?_
        exact chain'_le_cons_of_le hle h3'
      · rcases hem with hsame | ⟨happ, hgate⟩
        · refine ih _ (hsame ▸ h1) ?_ ?_
          · intro x hx
            rw [hsame] at hx
            exact (h2 x hx).trans (hlast ▸ hle)
          · rw [hlast]
            exact h3'
        · refine ih _ ?_ ?_ ?_
          · rw [happ, List.chain'_append]
            refine ⟨h1, List.chain'_singleton _, ?_⟩
            intro a ha y hy
            simp only [List.head?_cons, Option.mem_def, Option.some.injEq] at hy
            subst hy
            rcases hgate with hlt | hbuf
            · have := h2 a ha
              left
              simp only []
              omega
            · right
              exact hbuf
          · intro x hx
            rw [happ] at hx
            simp only [List.getLast?_concat, Option.mem_def, Option.some.injEq] at hx
            subst hx
            rw [hlast]
          · rw [hlast]
            exact h3'

/-- C9 (amended): in the Codex executor, every emitted update that is not a
turn completion arrives more than two seconds after the previous emission, and
a turn-completion event with a non-empty message is always emitted regardless
of the interval; terminal `error` events enjoy no such exemption and are
throttled like ordinary updates.  In the Claude executor a flush is triggered
by time or by the pending buffer exceeding 500 characters, so two consecutive
emissions are either more than two seconds apart or the later one flushed an
over-500-character buffer. -/
theorem claim_C9_throttle_spacing :
    (∀ (t0 : Int) (evs : List (Int × CodexJSONEvent)),
       List.Chain' (fun a b : Int × String × String =>
           b.2.1 ≠ "turn.completed" → 2000 < b.1 - a.1)
         (codexEmissions t0 evs)) ∧
    (∀ (t0 : Int) (evs : List (Int × CodexJSONEvent)) (t : Int) (e : CodexJSONEvent),
       (t, e) ∈ evs → e.etype = "turn.completed" → extractProgressFromEvent e ≠ "" →
       (t, e.etype, extractProgressFromEvent e) ∈ codexEmissions t0 evs) ∧
    (∀ (t0 : Int) (chunks : List (Int × List Char)),
       List.Chain' (· ≤ ·) (t0 :: chunks.map Prod.fst) →
       List.Chain' (fun a b : Int × Nat × String => 2000 < b.1 - a.1 ∨ 500 < b.2.1)
         (claudeEmissions t0 chunks)) := by
  refine ⟨?_, ?_, ?_⟩
  · intro t0 evs
    exact codex_foldl_chain evs ⟨t0, []⟩ (by simp) (by simp)
  · intro t0 evs t e hmem htype hmsg
    exact codex_turn_completed_emitted evs ⟨t0, []⟩ t e hmem htype hmsg
  · intro t0 chunks h
    exact claude_foldl_chain chunks ⟨t0, [], []⟩ (by simp) (by simp) h

/-- C9 witness: a turn-completion event only 100ms after the clock start is
emitted anyway. -/
theorem claim_C9_throttle_spacing_witness :
    (100, "turn.completed",
        extractProgressFromEvent ⟨"turn.completed", none, some (some 3, some 4), none⟩) ∈
      codexEmissions 0 [(100, ⟨"turn.completed", none, some (some 3, some 4), none⟩)] :=
  claim_C9_throttle_spacing.2.1 0
    [(100, ⟨"turn.completed", none, some (some 3, some 4), none⟩)] 100
    ⟨"turn.completed", none, some (some 3, some 4), none⟩ (by simp) rfl (by decide)

set_option maxRecDepth 200000 in
/-- C9 counterexample: (a) a terminal `error` event with a non-empty message
arriving 500ms after the previous emission is dropped by the Codex throttle,
so terminal events are not always emitted immediately; (b) in the Claude
executor two over-500-character stdout chunks 100ms apart are both emitted, so
consecutive progress updates are not always separated by more than two
seconds. -/
theorem claim_C9_counterexample :
    codexEmissions 0
        [(2500, ⟨"thread.started", none, none, none⟩),
         (3000, ⟨"error", none, none, some "boom"⟩)] =
      [(2500, "thread.started", "🔄 Started processing...")] ∧
    extractProgressFromEvent ⟨"error", none, none, some "boom"⟩ = "❌ Error: boom" ∧
    (claudeEmissions 0
        [(2500, List.replicate 490 'a' ++ '\n' :: List.replicate 30 'b'),
         (2600, List.replicate 490 'a' ++ '\n' :: List.replicate 30 'b')]).map
        (fun x => x.1) = [2500, 2600] := by
  refine ⟨by decide, by decide, by decide⟩

/-- C10: `getChangedFiles` maps a thrown git-status error to the empty list
instead of propagating it, which is exactly the result of a clean status; the
orchestrator consequently posts the single no-changes comment and attempts no
branch, push, or merge request for such a run. -/
theorem claim_C10_status_failure_suppresses_publish :
    (∀ e : String, getChangedFiles (Except.error e) = []) ∧
    (∀ e : String, getChangedFiles (Except.error e) = getChangedFiles (Except.ok ⟨[]⟩)) ∧
    (∀ (e webUrl baseBranch output err : String) (po : PublishOracle) (fs : List String),
       (handleSuccess webUrl ⟨true, output, err, getChangedFiles (Except.error e)⟩
           baseBranch po ⟨fs, []⟩).2.trace =
         [GEv.postComment (successBaseMsg output ++ "📋 No file changes were made.\n")]) := by
  refine ⟨fun _ => rfl, fun _ => rfl, ?_⟩
  intro e webUrl baseBranch output err po fs
  have h := (handleSuccess_no_changes webUrl
    ⟨true, output, err, getChangedFiles (Except.error e)⟩ baseBranch po ⟨fs, []⟩ rfl).1
  simpa using h

end Webhook
